import Mathlib

/-!
Shallow embedding of `bfvos/train.py` (triplet-pool construction and the
training/validation loop drivers) and proofs about it.

Modelling conventions:
* A 2D tensor of shape (H, W) is a `List (List α)` of H rows of length W.
* An embedding field of shape (D, H, W) is a list of D channels, each an
  H x W grid of integer entries (the real-valued entries of the source are
  modelled over ℤ; no claim depends on their arithmetic).
* `torch.nonzero` enumerates coordinates in row-major order; this is
  `gridHits` below.
* Operations that can raise in the source (`torch.cat` on an empty list or
  on shape-mismatched tensors, unpacking `None`) are modelled in
  `Except String`; a raised exception is `Except.error`.
* The convolutional backbone, the loss function and the optimizer update are
  external collaborators and are passed as opaque function parameters.
-/

deriving instance DecidableEq for Except

namespace BFVOS

/-- A 2D grid (tensor of shape (H, W)). -/
abbrev Grid (α : Type) := List (List α)

/-- An annotation mask: 2D grid of byte values (1 = foreground, 0 = background). -/
abbrev Mask := Grid Nat

/-- An embedding field of shape (D, H, W): D channels of H x W grids. -/
abbrev Emb := List (Grid Int)

/-- A pixel-embedding batch: a list of D-dimensional vectors. -/
abbrev Batch := List (List Int)

/-- One data-loader sample: an opaque image payload plus the three
annotation masks (anchor, frame F1, frame F2); models `sample['image']`
and `sample['annotation']`. -/
structure Sample where
  img : List Int
  ann : Mask × Mask × Mask
deriving DecidableEq

/-- The six batches returned by `create_triplet_pools` in the order the
source lists them. -/
structure TripletPools where
  fg_embedding_a : Batch
  fg_positive_pool : Batch
  fg_negative_pool : Batch
  bg_embedding_a : Batch
  bg_positive_pool : Batch
  bg_negative_pool : Batch
deriving DecidableEq

/-- Scan one mask row from column `j`, collecting coordinates `(i, j)` of
entries satisfying `pred` in left-to-right order (one row of
`torch.nonzero`). -/
def rowHitsFrom (pred : Nat → Bool) (i : Nat) : Nat → List Nat → List (Nat × Nat)
  | _, [] => []
  | j, v :: rest =>
    if pred v then (i, j) :: rowHitsFrom pred i (j + 1) rest
    else rowHitsFrom pred i (j + 1) rest

/-- Scan the rows of a grid from row index `i`, in row-major order. -/
def gridHitsFrom (pred : Nat → Bool) : Nat → Mask → List (Nat × Nat)
  | _, [] => []
  | i, row :: rest => rowHitsFrom pred i 0 row ++ gridHitsFrom pred (i + 1) rest

/-- Row-major coordinates of the entries of `m` satisfying `pred`. -/
def gridHits (pred : Nat → Bool) (m : Mask) : List (Nat × Nat) :=
  gridHitsFrom pred 0 m

/-- `torch.nonzero(m)`: coordinates of nonzero entries, row-major. -/
def nonzeroIndices (m : Mask) : List (Nat × Nat) :=
  gridHits (fun v => v != 0) m

/-- `torch.nonzero(m == 0)`: coordinates of zero entries, row-major. -/
def zeroIndices (m : Mask) : List (Nat × Nat) :=
  gridHits (fun v => v == 0) m

/-- `torch.cat([m1, m2], 1)`: horizontal concatenation of two 2D tensors;
raises unless the row counts agree. -/
def hcatMask (m1 m2 : Mask) : Except String Mask :=
  if m1.length = m2.length then
    Except.ok (List.zipWith (· ++ ·) m1 m2)
  else
    Except.error "RuntimeError: Sizes of tensors must match except in dimension 1"

/-- `torch.cat([e1, e2], 2)`: horizontal concatenation of two (D, H, W)
tensors along the width axis; raises unless channel counts and heights
agree. -/
def hcatEmb (e1 e2 : Emb) : Except String Emb :=
  if e1.length = e2.length ∧ ∀ p ∈ List.zip e1 e2, p.1.length = p.2.length then
    Except.ok (List.zipWith (List.zipWith (· ++ ·)) e1 e2)
  else
    Except.error "RuntimeError: Sizes of tensors must match except in dimension 2"

/-- `e[:, x, y]`: the D-vector at spatial location `(x, y)` of an embedding
field (indices produced by the source are always in range; out-of-range
reads default). -/
def gatherVec (e : Emb) (x y : Nat) : List Int :=
  e.map fun ch => (ch.getD x []).getD y 0

/-- `torch.cat` over a Python list of gathered row vectors: raises on an
empty list, otherwise stacks them (the list itself). -/
def torch_cat_rows (rows : Batch) : Except String Batch :=
  if rows.isEmpty then
    Except.error "RuntimeError: cat expects a non-empty list of Tensors"
  else
    Except.ok rows

/-- `create_triplet_pools(sample, embeddings)` from `train.py` lines
143-190: build the six pixel-embedding batches from the three annotation
masks and three embedding fields, returning `ok none` when any of the four
index sets is empty. -/
def create_triplet_pools (sample : Sample) (embeddings : Emb × Emb × Emb) :
    Except String (Option TripletPools) :=
  let embedding_a := embeddings.1
  match hcatEmb embeddings.2.1 embeddings.2.2 with
  | Except.error e => Except.error e
  | Except.ok embedding_pool_points =>
    let anchor_points := sample.ann.1
    let fg_anchor_indices := nonzeroIndices anchor_points
    let bg_anchor_indices := zeroIndices anchor_points
    if fg_anchor_indices.length = 0 ∨ bg_anchor_indices.length = 0 then
      Except.ok none
    else
      match hcatMask sample.ann.2.1 sample.ann.2.2 with
      | Except.error e => Except.error e
      | Except.ok all_pool_points =>
        let fg_pool_indices := nonzeroIndices all_pool_points
        let bg_pool_indices := zeroIndices all_pool_points
        if fg_pool_indices.length = 0 ∨ bg_pool_indices.length = 0 then
          Except.ok none
        else
          match torch_cat_rows
              (fg_anchor_indices.map fun p => gatherVec embedding_a p.1 p.2) with
          | Except.error e => Except.error e
          | Except.ok fg_embedding_a =>
            match torch_cat_rows
                (bg_anchor_indices.map fun p => gatherVec embedding_a p.1 p.2) with
            | Except.error e => Except.error e
            | Except.ok bg_embedding_a =>
              match torch_cat_rows
                  (fg_pool_indices.map fun p =>
                    gatherVec embedding_pool_points p.1 p.2) with
              | Except.error e => Except.error e
              | Except.ok fg_positive_pool =>
                match torch_cat_rows
                    (bg_pool_indices.map fun p =>
                      gatherVec embedding_pool_points p.1 p.2) with
                | Except.error e => Except.error e
                | Except.ok bg_positive_pool =>
                  let fg_negative_pool := bg_positive_pool
                  let bg_negative_pool := fg_positive_pool
                  Except.ok (some
                    { fg_embedding_a := fg_embedding_a
                      fg_positive_pool := fg_positive_pool
                      fg_negative_pool := fg_negative_pool
                      bg_embedding_a := bg_embedding_a
                      bg_positive_pool := bg_positive_pool
                      bg_negative_pool := bg_negative_pool })

/-- `MovingAverageValueMeter(windowsize)` from torchnet: holds the values
fed to it; `value` is the windowed mean (0 while unfed). Neither loop ever
feeds it. -/
structure Meter where
  windowSize : Nat
  fed : List Int
deriving DecidableEq

/-- `meter.add(v)`. -/
def Meter.add (m : Meter) (v : Int) : Meter :=
  { m with fed := v :: m.fed }

/-- `meter.value()[0]`: the mean over the window. -/
def Meter.value (m : Meter) : Int :=
  let w := m.fed.take m.windowSize
  if w.length = 0 then 0 else w.sum / (w.length : Int)

/-- The mode-relevant state of the model object: `training` is the
train/eval flag, `featuresFrozen` records `freeze_feature_extraction()`,
`onDevice` whether the model sits on the configured device (true) or was
moved to the cpu (false). -/
structure ModelMode where
  training : Bool
  featuresFrozen : Bool
  onDevice : Bool
deriving DecidableEq

/-- The canonical state the training loop keeps the model in: training
mode, feature-extraction layers frozen, on the configured device. -/
def trainModeFrozen : ModelMode :=
  { training := true, featuresFrozen := true, onDevice := true }

/-- The checkpoint block of `train` (lines 241-248):
`model.eval().cpu()`, `torch.save(...)`, `model.to(device).train()`,
`model.freeze_feature_extraction()`. -/
def checkpointSaveRestore (m : ModelMode) : ModelMode :=
  let afterEval := { m with training := false }
  let afterCpu := { afterEval with onDevice := false }
  let afterToDevice := { afterCpu with onDevice := true }
  let afterTrain := { afterToDevice with training := true }
  { afterTrain with featuresFrozen := true }

/-- Mutable state threaded through the training loop: model parameters
(abstract type `P`), the running fg/bg loss accumulators, the model's mode,
the loss meter, and the list of `(value, step)` scalars emitted to the
metrics sink under the `train_loss` tag. -/
structure TrainState (P : Type) where
  params : P
  agg_fg_loss : Int
  agg_bg_loss : Int
  mode : ModelMode
  meter : Meter
  emitted : List (Int × Nat)
deriving DecidableEq

/-- One iteration of the `train` loop body (lines 196-248). `modelF` is the
backbone (params and sample to three embedding fields), `lossF` the triplet
loss, `optUpdate` the optimizer step (`zero_grad`; `backward`; `step`)
as a function of the current parameters and the final loss. A sample whose
pool result is `none` is skipped via `continue`: the state is returned
untouched and the logging and checkpoint blocks are not reached. -/
def trainStep {P : Type} (modelF : P → Sample → Emb × Emb × Emb)
    (lossF : Batch → Batch → Batch → Int) (optUpdate : P → Int → P)
    (logInterval ckptInterval : Nat) (idx : Nat) (st : TrainState P)
    (sample : Sample) : Except String (TrainState P) :=
  let embeddings := modelF st.params sample
  match create_triplet_pools sample embeddings with
  | Except.error e => Except.error e
  | Except.ok none => Except.ok st
  | Except.ok (some tp) =>
    let fg_loss := lossF tp.fg_embedding_a tp.fg_positive_pool tp.fg_negative_pool
    let bg_loss := lossF tp.bg_embedding_a tp.bg_positive_pool tp.bg_negative_pool
    let final_loss := fg_loss + bg_loss
    let params := optUpdate st.params final_loss
    let agg_fg := st.agg_fg_loss + fg_loss
    let agg_bg := st.agg_bg_loss + bg_loss
    let emitted :=
      if (idx + 1) % logInterval = 0 then
        st.emitted ++ [(st.meter.value, idx + 1)]
      else st.emitted
    let mode :=
      if (idx + 1) % ckptInterval = 0 then checkpointSaveRestore st.mode
      else st.mode
    Except.ok { params := params, agg_fg_loss := agg_fg, agg_bg_loss := agg_bg,
                mode := mode, meter := st.meter, emitted := emitted }

/-- The `train` loop (line 196): fold `trainStep` over the enumerated
samples; an exception from the body propagates out. -/
def trainLoop {P : Type} (modelF : P → Sample → Emb × Emb × Emb)
    (lossF : Batch → Batch → Batch → Int) (optUpdate : P → Int → P)
    (logInterval ckptInterval : Nat) :
    Nat → TrainState P → List Sample → Except String (TrainState P)
  | _, st, [] => Except.ok st
  | idx, st, s :: rest =>
    match trainStep modelF lossF optUpdate logInterval ckptInterval idx st s with
    | Except.error e => Except.error e
    | Except.ok st' =>
      trainLoop modelF lossF optUpdate logInterval ckptInterval (idx + 1) st' rest

/-- Mutable state threaded through the validation loop: the running fg/bg
accumulators, the meter, and the `(value, step)` scalars emitted under the
`val_loss` tag. The parameters are read-only in validation (`no_grad`, no
optimizer step). -/
structure ValState where
  agg_fg_loss : Int
  agg_bg_loss : Int
  meter : Meter
  emitted : List (Int × Nat)
deriving DecidableEq

/-- One iteration of the `validate` loop body (lines 257-282). Line 266
unpacks the result of `create_triplet_pools` into six variables with no
`None` check, so a degenerate sample raises a `TypeError`. `cap` is
`num_val_samples_to_evaluate` (default -1). -/
def valStep {P : Type} (modelF : P → Sample → Emb × Emb × Emb) (params : P)
    (lossF : Batch → Batch → Batch → Int) (logInterval : Nat) (cap : Int)
    (idx : Nat) (st : ValState) (sample : Sample) : Except String ValState :=
  let embeddings := modelF params sample
  match create_triplet_pools sample embeddings with
  | Except.error e => Except.error e
  | Except.ok none =>
    Except.error "TypeError: cannot unpack non-iterable NoneType object"
  | Except.ok (some tp) =>
    let fg_loss := lossF tp.fg_embedding_a tp.fg_positive_pool tp.fg_negative_pool
    let bg_loss := lossF tp.bg_embedding_a tp.bg_positive_pool tp.bg_negative_pool
    let agg_fg := st.agg_fg_loss + fg_loss
    let agg_bg := st.agg_bg_loss + bg_loss
    let emitted :=
      if (idx + 1) % logInterval = 0 ∨ (idx : Int) = cap then
        st.emitted ++ [(st.meter.value, idx + 1)]
      else st.emitted
    Except.ok { agg_fg_loss := agg_fg, agg_bg_loss := agg_bg,
                meter := st.meter, emitted := emitted }

/-- The `validate` loop (lines 257-285): after each processed sample, break
once `idx == num_val_samples_to_evaluate`. Returns the number of samples
whose iteration completed, together with the final state. -/
def valLoop {P : Type} (modelF : P → Sample → Emb × Emb × Emb) (params : P)
    (lossF : Batch → Batch → Batch → Int) (logInterval : Nat) (cap : Int) :
    Nat → ValState → List Sample → Except String (Nat × ValState)
  | idx, st, [] => Except.ok (idx, st)
  | idx, st, s :: rest =>
    match valStep modelF params lossF logInterval cap idx st s with
    | Except.error e => Except.error e
    | Except.ok st' =>
      if (idx : Int) = cap then Except.ok (idx + 1, st')
      else valLoop modelF params lossF logInterval cap (idx + 1) st' rest

/-! Concrete fixtures: a 1 x 2 mask geometry with one degenerate sample
(anchor mask all background, so `fg_anchor_indices` is empty) and one valid
sample, plus a constant backbone and loss functions. -/

/-- Degenerate sample: the anchor mask has no foreground pixel. -/
def degSample : Sample :=
  { img := [], ann := ([[0, 0]], [[1, 0]], [[0, 0]]) }

/-- Valid sample: every index set is non-empty. -/
def okSample : Sample :=
  { img := [], ann := ([[1, 0]], [[1, 0]], [[0, 0]]) }

/-- A concrete (D, H, W) = (1, 1, 2) embedding field. -/
def cEmb : Emb := [[[2, 3]]]

/-- A concrete backbone: ignores parameters and sample, returns `cEmb` for
each of the three frames. -/
def cModelF : Int → Sample → Emb × Emb × Emb := fun _ _ => (cEmb, cEmb, cEmb)

/-- A concrete loss function. -/
def cLossF : Batch → Batch → Batch → Int := fun _ _ _ => 1

/-- A second concrete loss function, different from `cLossF`. -/
def cLossG : Batch → Batch → Batch → Int := fun _ _ _ => 2

/-- A concrete optimizer update. -/
def cOptUpdate : Int → Int → Int := fun p l => p + l

/-- A fresh `MovingAverageValueMeter(20)`. -/
def cMeter : Meter := { windowSize := 20, fed := [] }

/-- The training-loop state at entry. -/
def cTrainState : TrainState Int :=
  { params := 5, agg_fg_loss := 0, agg_bg_loss := 0, mode := trainModeFrozen,
    meter := cMeter, emitted := [] }

/-- The validation-loop state at entry. -/
def cValState : ValState :=
  { agg_fg_loss := 0, agg_bg_loss := 0, meter := cMeter, emitted := [] }

/-- Number of entries of a mask satisfying `pred`. -/
def countVal (pred : Nat → Bool) (m : Mask) : Nat :=
  (m.map fun row => row.countP pred).sum

/-- Number of foreground (value 1) pixels of a mask. -/
def countOnes (m : Mask) : Nat := countVal (fun v => v == 1) m

/-- Number of background (value 0) pixels of a mask. -/
def countZeros (m : Mask) : Nat := countVal (fun v => v == 0) m

/-- A mask is binary when every entry is 0 or 1. -/
def MaskBinary (m : Mask) : Prop := ∀ row ∈ m, ∀ v ∈ row, v = 0 ∨ v = 1

instance (m : Mask) : Decidable (MaskBinary m) :=
  inferInstanceAs (Decidable (∀ row ∈ m, ∀ v ∈ row, v = 0 ∨ v = 1))

theorem rowHitsFrom_length (pred : Nat → Bool) (i : Nat) :
    ∀ (j : Nat) (row : List Nat),
      (rowHitsFrom pred i j row).length = row.countP pred := by
  intro j row
  induction row generalizing j with
  | nil => rfl
  | cons v rest ih =>
    unfold rowHitsFrom
    by_cases h : pred v <;>
      simp [h, ih, List.countP_cons]

theorem gridHitsFrom_length (pred : Nat → Bool) :
    ∀ (i : Nat) (m : Mask),
      (gridHitsFrom pred i m).length = countVal pred m := by
  intro i m
  induction m generalizing i with
  | nil => rfl
  | cons row rest ih =>
    unfold gridHitsFrom
    rw [List.length_append, rowHitsFrom_length, ih (i + 1)]
    simp [countVal]

theorem gridHits_length (pred : Nat → Bool) (m : Mask) :
    (gridHits pred m).length = countVal pred m :=
  gridHitsFrom_length pred 0 m

theorem countVal_zipWith_append (pred : Nat → Bool) :
    ∀ (m1 m2 : Mask), m1.length = m2.length →
      countVal pred (List.zipWith (· ++ ·) m1 m2)
        = countVal pred m1 + countVal pred m2 := by
  intro m1
  induction m1 with
  | nil =>
    intro m2 h
    cases m2 with
    | nil => rfl
    | cons r rest => simp at h
  | cons r1 rest1 ih =>
    intro m2 h
    cases m2 with
    | nil => simp at h
    | cons r2 rest2 =>
      simp only [List.length_cons, Nat.succ.injEq] at h
      simp [countVal, List.zipWith, List.countP_append] at ih ⊢
      rw [ih rest2 h]
      ring

theorem countVal_ne_zero_of_binary {m : Mask} (hb : MaskBinary m) :
    countVal (fun v => v != 0) m = countOnes m := by
  unfold countOnes
  unfold countVal
  congr 1
  apply List.map_congr_left
  intro row hrow
  apply List.countP_congr
  intro v hv
  rcases hb row hrow v hv with h | h <;> simp [h]

theorem torch_cat_rows_of_ne_nil {rows : Batch} (h : rows ≠ []) :
    torch_cat_rows rows = Except.ok rows := by
  unfold torch_cat_rows
  simp [h]

/-- Inversion of a successful, non-skipped run of `create_triplet_pools`:
the guards held and the six batches are the gathered index maps. -/
theorem create_ok_some_elim {s : Sample} {embs : Emb × Emb × Emb}
    {tp : TripletPools}
    (h : create_triplet_pools s embs = Except.ok (some tp)) :
    ∃ epp app,
      hcatEmb embs.2.1 embs.2.2 = Except.ok epp ∧
      hcatMask s.ann.2.1 s.ann.2.2 = Except.ok app ∧
      (nonzeroIndices s.ann.1).length ≠ 0 ∧
      (zeroIndices s.ann.1).length ≠ 0 ∧
      (nonzeroIndices app).length ≠ 0 ∧
      (zeroIndices app).length ≠ 0 ∧
      tp = { fg_embedding_a :=
               (nonzeroIndices s.ann.1).map fun p => gatherVec embs.1 p.1 p.2,
             fg_positive_pool :=
               (nonzeroIndices app).map fun p => gatherVec epp p.1 p.2,
             fg_negative_pool :=
               (zeroIndices app).map fun p => gatherVec epp p.1 p.2,
             bg_embedding_a :=
               (zeroIndices s.ann.1).map fun p => gatherVec embs.1 p.1 p.2,
             bg_positive_pool :=
               (zeroIndices app).map fun p => gatherVec epp p.1 p.2,
             bg_negative_pool :=
               (nonzeroIndices app).map fun p => gatherVec epp p.1 p.2 } := by
  unfold create_triplet_pools at h
  cases hE : hcatEmb embs.2.1 embs.2.2 with
  | error e => rw [hE] at h; exact absurd h (by simp)
  | ok epp =>
    rw [hE] at h
    simp only at h
    by_cases hA : (nonzeroIndices s.ann.1).length = 0 ∨
        (zeroIndices s.ann.1).length = 0
    · rw [if_pos hA] at h; exact absurd h (by simp)
    · rw [if_neg hA] at h
      cases hM : hcatMask s.ann.2.1 s.ann.2.2 with
      | error e => rw [hM] at h; exact absurd h (by simp)
      | ok app =>
        rw [hM] at h
        simp only at h
        by_cases hP : (nonzeroIndices app).length = 0 ∨
            (zeroIndices app).length = 0
        · rw [if_pos hP] at h; exact absurd h (by simp)
        · rw [if_neg hP] at h
          push_neg at hA hP
          have hfa : (nonzeroIndices s.ann.1).map
              (fun p => gatherVec embs.1 p.1 p.2) ≠ [] := by
            intro hc
            exact hA.1 (by simpa using congrArg List.length hc)
          have hba : (zeroIndices s.ann.1).map
              (fun p => gatherVec embs.1 p.1 p.2) ≠ [] := by
            intro hc
            exact hA.2 (by simpa using congrArg List.length hc)
          have hfp : (nonzeroIndices app).map
              (fun p => gatherVec epp p.1 p.2) ≠ [] := by
            intro hc
            exact hP.1 (by simpa using congrArg List.length hc)
          have hbp : (zeroIndices app).map
              (fun p => gatherVec epp p.1 p.2) ≠ [] := by
            intro hc
            exact hP.2 (by simpa using congrArg List.length hc)
          rw [torch_cat_rows_of_ne_nil hfa, torch_cat_rows_of_ne_nil hba,
              torch_cat_rows_of_ne_nil hfp, torch_cat_rows_of_ne_nil hbp] at h
          simp only [Except.ok.injEq, Option.some.injEq] at h
          exact ⟨epp, app, rfl, rfl, hA.1, hA.2, hP.1, hP.2, h.symm⟩

/-- Claim C2: for every annotation-mask triple (with the data-model shape
invariant, expressed as the two concatenations succeeding) in which any of
the four index sets fg-anchor, bg-anchor, fg-pool, bg-pool is empty,
`create_triplet_pools` returns `ok none`: the empty result, and no
exception. -/
theorem c2_pool_emptiness_guard (s : Sample) (embs : Emb × Emb × Emb)
    (epp : Emb) (app : Mask)
    (hE : hcatEmb embs.2.1 embs.2.2 = Except.ok epp)
    (hM : hcatMask s.ann.2.1 s.ann.2.2 = Except.ok app)
    (hempty : (nonzeroIndices s.ann.1).length = 0 ∨
              (zeroIndices s.ann.1).length = 0 ∨
              (nonzeroIndices app).length = 0 ∨
              (zeroIndices app).length = 0) :
    create_triplet_pools s embs = Except.ok none := by
  unfold create_triplet_pools
  rw [hE]
  simp only
  by_cases hA : (nonzeroIndices s.ann.1).length = 0 ∨
      (zeroIndices s.ann.1).length = 0
  · rw [if_pos hA]
  · rw [if_neg hA]
    rw [hM]
    simp only
    push_neg at hA
    have hP : (nonzeroIndices app).length = 0 ∨ (zeroIndices app).length = 0 := by
      rcases hempty with h | h | h | h
      · exact absurd h hA.1
      · exact absurd h hA.2
      · exact Or.inl h
      · exact Or.inr h
    rw [if_pos hP]

/-- Witness for C2 at the concrete degenerate sample. -/
theorem c2_pool_emptiness_guard_witness :
    create_triplet_pools degSample (cEmb, cEmb, cEmb) = Except.ok none :=
  c2_pool_emptiness_guard degSample (cEmb, cEmb, cEmb) [[[2, 3, 2, 3]]]
    [[1, 0, 0, 0]] (by decide) (by decide) (by decide)

/-- Inversion of a successful horizontal mask concatenation. -/
theorem hcatMask_ok_elim {m1 m2 app : Mask}
    (h : hcatMask m1 m2 = Except.ok app) :
    m1.length = m2.length ∧ app = List.zipWith (· ++ ·) m1 m2 := by
  unfold hcatMask at h
  by_cases hl : m1.length = m2.length
  · rw [if_pos hl] at h
    simp only [Except.ok.injEq] at h
    exact ⟨hl, h.symm⟩
  · rw [if_neg hl] at h
    exact absurd h (by simp)

/-- Inversion of a successful horizontal embedding concatenation. -/
theorem hcatEmb_ok_elim {e1 e2 e : Emb}
    (h : hcatEmb e1 e2 = Except.ok e) :
    e1.length = e2.length ∧ (∀ p ∈ List.zip e1 e2, p.1.length = p.2.length) ∧
      e = List.zipWith (List.zipWith (· ++ ·)) e1 e2 := by
  unfold hcatEmb at h
  by_cases hl : e1.length = e2.length ∧ ∀ p ∈ List.zip e1 e2, p.1.length = p.2.length
  · rw [if_pos hl] at h
    simp only [Except.ok.injEq] at h
    exact ⟨hl.1, hl.2, h.symm⟩
  · rw [if_neg hl] at h
    exact absurd h (by simp)

/-- Claim C4: for every valid input with binary masks, the four batch
lengths are the pixel counts the spec names: `fg_positive_pool` has one
entry per foreground pixel of F1 and F2 combined, `bg_positive_pool` one
per background pixel of F1 and F2 combined, and `fg_embedding_a` /
`bg_embedding_a` one per foreground / background pixel of the anchor
mask. -/
theorem c4_pool_cardinality (s : Sample) (embs : Emb × Emb × Emb)
    (tp : TripletPools)
    (h : create_triplet_pools s embs = Except.ok (some tp))
    (hbA : MaskBinary s.ann.1) (hb1 : MaskBinary s.ann.2.1)
    (hb2 : MaskBinary s.ann.2.2) :
    tp.fg_positive_pool.length = countOnes s.ann.2.1 + countOnes s.ann.2.2 ∧
    tp.bg_positive_pool.length = countZeros s.ann.2.1 + countZeros s.ann.2.2 ∧
    tp.fg_embedding_a.length = countOnes s.ann.1 ∧
    tp.bg_embedding_a.length = countZeros s.ann.1 := by
  obtain ⟨epp, app, hE, hM, -, -, -, -, htp⟩ := create_ok_some_elim h
  obtain ⟨hl, happ⟩ := hcatMask_ok_elim hM
  subst htp
  subst happ
  refine ⟨?_, ?_, ?_, ?_⟩
  · show ((nonzeroIndices _).map _).length = _
    rw [List.length_map]
    unfold nonzeroIndices
    rw [gridHits_length, countVal_zipWith_append _ _ _ hl,
        countVal_ne_zero_of_binary hb1, countVal_ne_zero_of_binary hb2]
  · show ((zeroIndices _).map _).length = _
    rw [List.length_map]
    unfold zeroIndices
    rw [gridHits_length, countVal_zipWith_append _ _ _ hl]
    rfl
  · show ((nonzeroIndices _).map _).length = _
    rw [List.length_map]
    unfold nonzeroIndices
    rw [gridHits_length, countVal_ne_zero_of_binary hbA]
  · show ((zeroIndices _).map _).length = _
    rw [List.length_map]
    unfold zeroIndices
    rw [gridHits_length]
    rfl

/-- Witness for C4 at the concrete valid sample. -/
theorem c4_pool_cardinality_witness :
    ([[2]] : Batch).length = countOnes [[1, 0]] + countOnes [[0, 0]] ∧
    ([[3], [2], [3]] : Batch).length
      = countZeros [[1, 0]] + countZeros [[0, 0]] ∧
    ([[2]] : Batch).length = countOnes [[1, 0]] ∧
    ([[3]] : Batch).length = countZeros [[1, 0]] :=
  c4_pool_cardinality okSample (cEmb, cEmb, cEmb)
    { fg_embedding_a := [[2]], fg_positive_pool := [[2]],
      fg_negative_pool := [[3], [2], [3]], bg_embedding_a := [[3]],
      bg_positive_pool := [[3], [2], [3]], bg_negative_pool := [[2]] }
    (by decide) (by decide) (by decide) (by decide)

/-- A grid has H rows, each of length W. -/
def GridShape {α : Type} (g : Grid α) (H W : Nat) : Prop :=
  g.length = H ∧ ∀ row ∈ g, row.length = W

instance {α : Type} (g : Grid α) (H W : Nat) : Decidable (GridShape g H W) :=
  inferInstanceAs (Decidable (g.length = H ∧ ∀ row ∈ g, row.length = W))

/-- An embedding field has D channels, each an H x W grid. -/
def EmbShape (e : Emb) (D H W : Nat) : Prop :=
  e.length = D ∧ ∀ ch ∈ e, GridShape ch H W

instance (e : Emb) (D H W : Nat) : Decidable (EmbShape e D H W) :=
  inferInstanceAs (Decidable (e.length = D ∧ ∀ ch ∈ e, GridShape ch H W))

/-- The mask entry at spatial coordinate `(x, y)`. -/
def maskAt (m : Mask) (x y : Nat) : Nat := (m.getD x []).getD y 0

theorem mem_zipWith {α β γ : Type} {f : α → β → γ} :
    ∀ {l1 : List α} {l2 : List β} {c : γ}, c ∈ List.zipWith f l1 l2 →
      ∃ a b, a ∈ l1 ∧ b ∈ l2 ∧ c = f a b := by
  intro l1
  induction l1 with
  | nil => intro l2 c hc; simp at hc
  | cons a l1 ih =>
    intro l2 c hc
    cases l2 with
    | nil => simp at hc
    | cons b l2 =>
      rcases List.mem_cons.mp hc with h | h
      · exact ⟨a, b, List.mem_cons_self a l1, List.mem_cons_self b l2, h⟩
      · obtain ⟨a1, b1, ha, hb, hab⟩ := ih h
        exact ⟨a1, b1, List.mem_cons_of_mem a ha, List.mem_cons_of_mem b hb, hab⟩

theorem getD_zipWith_append {α : Type} :
    ∀ (l1 l2 : Grid α) (x : Nat), x < l1.length → x < l2.length →
      (List.zipWith (· ++ ·) l1 l2).getD x [] = l1.getD x [] ++ l2.getD x [] := by
  intro l1
  induction l1 with
  | nil => intro l2 x h1; simp at h1
  | cons a l1 ih =>
    intro l2 x h1 h2
    cases l2 with
    | nil => simp at h2
    | cons b l2 =>
      cases x with
      | zero => rfl
      | succ x =>
        simp only [List.zipWith_cons_cons, List.getD_cons_succ]
        exact ih l2 x (by simpa using h1) (by simpa using h2)

/-- A row of a well-shaped grid reached by an in-range `getD` has length
W. -/
theorem getD_row_length {α : Type} {g : Grid α} {H W : Nat}
    (hg : GridShape g H W) {x : Nat} (hx : x < H) :
    (g.getD x []).length = W := by
  have hxl : x < g.length := hg.1 ▸ hx
  rw [List.getD_eq_getElem _ _ hxl]
  exact hg.2 _ (List.getElem_mem hxl)

/-- Splitting an in-range read of a horizontally concatenated grid row. -/
theorem getD_append_split {α : Type} (r1 r2 : List α) (d : α) {W1 : Nat}
    (hr1 : r1.length = W1) (y : Nat) :
    (r1 ++ r2).getD y d = if y < W1 then r1.getD y d else r2.getD (y - W1) d := by
  by_cases hy : y < W1
  · rw [if_pos hy]
    exact List.getD_append r1 r2 d y (hr1 ▸ hy)
  · rw [if_neg hy]
    have := List.getD_append_right r1 r2 d y (by omega)
    rw [this, hr1]

/-- The combined pool mask decomposes: reading it at `(x, y)` reads F1 when
`y < W1` and F2 at the offset-corrected column otherwise. -/
theorem maskAt_hcat {m1 m2 m : Mask} {H W1 W2 : Nat}
    (hm1 : GridShape m1 H W1) (hm2 : GridShape m2 H W2)
    (hm : hcatMask m1 m2 = Except.ok m) (x y : Nat) (hx : x < H) :
    maskAt m x y = if y < W1 then maskAt m1 x y else maskAt m2 x (y - W1) := by
  obtain ⟨-, hzip⟩ := hcatMask_ok_elim hm
  subst hzip
  unfold maskAt
  rw [getD_zipWith_append m1 m2 x (hm1.1 ▸ hx) (hm2.1 ▸ hx)]
  exact getD_append_split _ _ _ (getD_row_length hm1 hx) y

theorem gatherVec_hcat_aux {H W1 W2 : Nat} (x y : Nat) (hx : x < H) :
    ∀ (e1 e2 : Emb), e1.length = e2.length →
      (∀ ch ∈ e1, GridShape ch H W1) → (∀ ch ∈ e2, GridShape ch H W2) →
      (List.zipWith (List.zipWith (· ++ ·)) e1 e2).map
          (fun ch => (ch.getD x []).getD y 0)
        = if y < W1 then e1.map (fun ch => (ch.getD x []).getD y 0)
          else e2.map (fun ch => (ch.getD x []).getD (y - W1) 0) := by
  intro e1
  induction e1 with
  | nil =>
    intro e2 hlen h1 h2
    cases e2 with
    | nil => by_cases hy : y < W1 <;> simp [hy]
    | cons ch2 e2 => simp at hlen
  | cons ch1 e1 ih =>
    intro e2 hlen h1 h2
    cases e2 with
    | nil => simp at hlen
    | cons ch2 e2 =>
      have hlen' : e1.length = e2.length := by simpa using hlen
      have hch1 := h1 ch1 (List.mem_cons_self ch1 e1)
      have hch2 := h2 ch2 (List.mem_cons_self ch2 e2)
      have hhead : ((List.zipWith (· ++ ·) ch1 ch2).getD x []).getD y 0
          = if y < W1 then (ch1.getD x []).getD y 0
            else (ch2.getD x []).getD (y - W1) 0 := by
        rw [getD_zipWith_append ch1 ch2 x (hch1.1 ▸ hx) (hch2.1 ▸ hx)]
        exact getD_append_split _ _ _ (getD_row_length hch1 hx) y
      have htail := ih e2 hlen'
        (fun ch hch => h1 ch (List.mem_cons_of_mem ch1 hch))
        (fun ch hch => h2 ch (List.mem_cons_of_mem ch2 hch))
      simp only [List.zipWith_cons_cons, List.map_cons]
      by_cases hy : y < W1
      · rw [if_pos hy] at hhead htail ⊢
        rw [hhead, htail]
      · rw [if_neg hy] at hhead htail ⊢
        rw [hhead, htail]

/-- The combined pooled embedding field decomposes: gathering the D-vector
at `(x, y)` gathers from F1 when `y < W1` and from F2 at the
offset-corrected column otherwise. -/
theorem gatherVec_hcat {e1 e2 e : Emb} {D H W1 W2 : Nat}
    (he1 : EmbShape e1 D H W1) (he2 : EmbShape e2 D H W2)
    (he : hcatEmb e1 e2 = Except.ok e) (x y : Nat) (hx : x < H) :
    gatherVec e x y =
      if y < W1 then gatherVec e1 x y else gatherVec e2 x (y - W1) := by
  obtain ⟨hlen, -, hzip⟩ := hcatEmb_ok_elim he
  subst hzip
  unfold gatherVec
  have := gatherVec_hcat_aux x y hx e1 e2 hlen he1.2 he2.2
  by_cases hy : y < W1
  · rw [if_pos hy] at this ⊢; exact this
  · rw [if_neg hy] at this ⊢; exact this

theorem gridShape_zipWith_append {α : Type} {H W1 W2 : Nat}
    {m1 m2 : Grid α} (hm1 : GridShape m1 H W1) (hm2 : GridShape m2 H W2) :
    GridShape (List.zipWith (· ++ ·) m1 m2) H (W1 + W2) := by
  constructor
  · rw [List.length_zipWith, hm1.1, hm2.1, Nat.min_self]
  · intro row hrow
    obtain ⟨r1, r2, hr1, hr2, hr⟩ := mem_zipWith hrow
    rw [hr, List.length_append, hm1.2 r1 hr1, hm2.2 r2 hr2]

/-- Claim C5: concatenation correctness. With F1 of spatial size
(H, W1) and F2 of (H, W2), the combined pool mask is (H, W1 + W2) and the
combined pooled embedding field (D, H, W1 + W2) - the width along the
concatenation axis is the sum of the two widths - and reading either
combined object at any in-range coordinate returns the per-frame value at
the decomposed coordinate: F1 when `y < W1`, F2 at column `y - W1`
otherwise. Mask and embedding use the same decomposition threshold `W1`,
i.e. they are concatenated along the same spatial axis. -/
theorem c5_hcat_correctness (m1 m2 : Mask) (e1 e2 : Emb)
    (D H W1 W2 : Nat) (hm1 : GridShape m1 H W1) (hm2 : GridShape m2 H W2)
    (he1 : EmbShape e1 D H W1) (he2 : EmbShape e2 D H W2) :
    ∃ m e, hcatMask m1 m2 = Except.ok m ∧ hcatEmb e1 e2 = Except.ok e ∧
      GridShape m H (W1 + W2) ∧ EmbShape e D H (W1 + W2) ∧
      ∀ x y, x < H → y < W1 + W2 →
        maskAt m x y
            = (if y < W1 then maskAt m1 x y else maskAt m2 x (y - W1)) ∧
        gatherVec e x y
            = (if y < W1 then gatherVec e1 x y else gatherVec e2 x (y - W1)) := by
  have hm : hcatMask m1 m2 = Except.ok (List.zipWith (· ++ ·) m1 m2) := by
    unfold hcatMask
    rw [if_pos (by rw [hm1.1, hm2.1])]
  have hzipcond : e1.length = e2.length ∧
      ∀ p ∈ List.zip e1 e2, p.1.length = p.2.length := by
    constructor
    · rw [he1.1, he2.1]
    · intro p hp
      obtain ⟨hp1, hp2⟩ := List.of_mem_zip hp
      rw [(he1.2 p.1 hp1).1, (he2.2 p.2 hp2).1]
  have heq : hcatEmb e1 e2
      = Except.ok (List.zipWith (List.zipWith (· ++ ·)) e1 e2) := by
    unfold hcatEmb
    rw [if_pos hzipcond]
  refine ⟨_, _, hm, heq, gridShape_zipWith_append hm1 hm2, ?_, ?_⟩
  · constructor
    · rw [List.length_zipWith, he1.1, he2.1, Nat.min_self]
    · intro ch hch
      obtain ⟨c1, c2, hc1, hc2, hc⟩ := mem_zipWith hch
      rw [hc]
      exact gridShape_zipWith_append (he1.2 c1 hc1) (he2.2 c2 hc2)
  · intro x y hx _
    exact ⟨maskAt_hcat hm1 hm2 hm x y hx,
           gatherVec_hcat he1 he2 heq x y hx⟩

/-- Witness for C5 at concrete 1 x 2 frames. -/
theorem c5_hcat_correctness_witness :
    ∃ m e, hcatMask [[1, 0]] [[0, 0]] = Except.ok m ∧
      hcatEmb cEmb cEmb = Except.ok e ∧
      GridShape m 1 (2 + 2) ∧ EmbShape e 1 1 (2 + 2) ∧
      ∀ x y, x < 1 → y < 2 + 2 →
        maskAt m x y
            = (if y < 2 then maskAt [[1, 0]] x y
               else maskAt [[0, 0]] x (y - 2)) ∧
        gatherVec e x y
            = (if y < 2 then gatherVec cEmb x y
               else gatherVec cEmb x (y - 2)) :=
  c5_hcat_correctness [[1, 0]] [[0, 0]] cEmb cEmb 1 1 2 2
    (by decide) (by decide) (by decide) (by decide)

/-- Claim C3: for every valid (non-skipped) input, the returned
`fg_negative_pool` is the very same batch as `bg_positive_pool`, and
`bg_negative_pool` the same as `fg_positive_pool` (role-swap reuse). -/
theorem c3_role_swap_symmetry (s : Sample) (embs : Emb × Emb × Emb)
    (tp : TripletPools)
    (h : create_triplet_pools s embs = Except.ok (some tp)) :
    tp.fg_negative_pool = tp.bg_positive_pool ∧
    tp.bg_negative_pool = tp.fg_positive_pool := by
  obtain ⟨epp, app, -, -, -, -, -, -, htp⟩ := create_ok_some_elim h
  subst htp
  exact ⟨rfl, rfl⟩

/-- Witness for C3 at the concrete valid sample. -/
theorem c3_role_swap_symmetry_witness :
    ({ fg_embedding_a := [[2]], fg_positive_pool := [[2]],
       fg_negative_pool := [[3], [2], [3]], bg_embedding_a := [[3]],
       bg_positive_pool := [[3], [2], [3]],
       bg_negative_pool := [[2]] } : TripletPools).fg_negative_pool
        = ({ fg_embedding_a := [[2]], fg_positive_pool := [[2]],
             fg_negative_pool := [[3], [2], [3]], bg_embedding_a := [[3]],
             bg_positive_pool := [[3], [2], [3]],
             bg_negative_pool := [[2]] } : TripletPools).bg_positive_pool ∧
    ({ fg_embedding_a := [[2]], fg_positive_pool := [[2]],
       fg_negative_pool := [[3], [2], [3]], bg_embedding_a := [[3]],
       bg_positive_pool := [[3], [2], [3]],
       bg_negative_pool := [[2]] } : TripletPools).bg_negative_pool
        = ({ fg_embedding_a := [[2]], fg_positive_pool := [[2]],
             fg_negative_pool := [[3], [2], [3]], bg_embedding_a := [[3]],
             bg_positive_pool := [[3], [2], [3]],
             bg_negative_pool := [[2]] } : TripletPools).fg_positive_pool :=
  c3_role_swap_symmetry okSample (cEmb, cEmb, cEmb) _ (by decide)

/-- A sample is valid for the given backbone and parameters when the pool
builder returns a non-skipped pool set. -/
def poolsSome {P : Type} (modelF : P → Sample → Emb × Emb × Emb) (params : P)
    (s : Sample) : Prop :=
  ∃ tp, create_triplet_pools s (modelF params s) = Except.ok (some tp)

/-- Claim C6: a training-loop sample for which the pool builder returns the
empty result is skipped entirely: the whole training state - model
parameters, both running loss accumulators, mode, meter, emissions - is
returned unchanged and no exception is raised. -/
theorem c6_skip_does_not_mutate {P : Type}
    (modelF : P → Sample → Emb × Emb × Emb)
    (lossF : Batch → Batch → Batch → Int) (optUpdate : P → Int → P)
    (logInterval ckptInterval idx : Nat) (st : TrainState P) (s : Sample)
    (h : create_triplet_pools s (modelF st.params s) = Except.ok none) :
    trainStep modelF lossF optUpdate logInterval ckptInterval idx st s
      = Except.ok st := by
  simp only [trainStep]
  rw [h]

/-- Witness for C6 at the concrete degenerate sample. -/
theorem c6_skip_does_not_mutate_witness :
    trainStep cModelF cLossF cOptUpdate 10 10 0 cTrainState degSample
      = Except.ok cTrainState :=
  c6_skip_does_not_mutate cModelF cLossF cOptUpdate 10 10 0 cTrainState
    degSample (by decide)

/-- Claim C9: after a checkpoint-save step (a non-skipped iteration whose
index fires the checkpoint interval), the model mode is training with the
feature-extraction layers re-frozen and placed on the configured device;
in particular, when the model entered the iteration in that canonical
training state, the save-time eval/cpu switch does not leak: the mode after
the step equals the mode before it. -/
theorem c9_checkpoint_mode_restore {P : Type}
    (modelF : P → Sample → Emb × Emb × Emb)
    (lossF : Batch → Batch → Batch → Int) (optUpdate : P → Int → P)
    (logInterval ckptInterval idx : Nat) (st st' : TrainState P) (s : Sample)
    (tp : TripletPools)
    (hck : (idx + 1) % ckptInterval = 0)
    (hpool : create_triplet_pools s (modelF st.params s)
        = Except.ok (some tp))
    (hstep : trainStep modelF lossF optUpdate logInterval ckptInterval idx st s
        = Except.ok st') :
    st'.mode = trainModeFrozen ∧
    (st.mode = trainModeFrozen → st'.mode = st.mode) := by
  simp only [trainStep] at hstep
  rw [hpool] at hstep
  simp only [Except.ok.injEq] at hstep
  subst hstep
  have hrestore : ∀ m : ModelMode, checkpointSaveRestore m = trainModeFrozen := by
    intro m
    rfl
  constructor
  · show (if (idx + 1) % ckptInterval = 0 then checkpointSaveRestore st.mode
      else st.mode) = trainModeFrozen
    rw [if_pos hck, hrestore]
  · intro hm
    show (if (idx + 1) % ckptInterval = 0 then checkpointSaveRestore st.mode
      else st.mode) = st.mode
    rw [if_pos hck, hrestore, hm]

/-- Witness for C9 at the concrete valid sample with checkpoint interval
1. -/
theorem c9_checkpoint_mode_restore_witness :
    ({ params := (7 : Int), agg_fg_loss := 1, agg_bg_loss := 1,
       mode := trainModeFrozen, meter := cMeter,
       emitted := [(0, 1)] } : TrainState Int).mode = trainModeFrozen ∧
    (cTrainState.mode = trainModeFrozen →
      ({ params := (7 : Int), agg_fg_loss := 1, agg_bg_loss := 1,
         mode := trainModeFrozen, meter := cMeter,
         emitted := [(0, 1)] } : TrainState Int).mode = cTrainState.mode) :=
  c9_checkpoint_mode_restore cModelF cLossF cOptUpdate 1 1 0 cTrainState
    { params := (7 : Int), agg_fg_loss := 1, agg_bg_loss := 1,
      mode := trainModeFrozen, meter := cMeter, emitted := [(0, 1)] }
    okSample
    { fg_embedding_a := [[2]], fg_positive_pool := [[2]],
      fg_negative_pool := [[3], [2], [3]], bg_embedding_a := [[3]],
      bg_positive_pool := [[3], [2], [3]], bg_negative_pool := [[2]] }
    (by decide) (by decide) (by decide)

/-- Claim C1 is contradicted by the code: on a degenerate sample the
training loop skips and returns its state unchanged, but the validation
loop - which unpacks the builder result without a None check (line 266) -
raises a TypeError that propagates out of the loop. -/
theorem c1_validate_crashes_on_degenerate_sample :
    trainLoop cModelF cLossF cOptUpdate 10 10 0 cTrainState [degSample]
        = Except.ok cTrainState ∧
    valLoop cModelF (5 : Int) cLossF 10 (-1) 0 cValState [degSample]
        = Except.error "TypeError: cannot unpack non-iterable NoneType object" :=
  ⟨rfl, rfl⟩

/-- A valid sample never makes `valStep` raise: the builder returns a pool
set and the step completes. -/
theorem valStep_ok_of_poolsSome {P : Type}
    {modelF : P → Sample → Emb × Emb × Emb} {params : P} {s : Sample}
    (h : poolsSome modelF params s) (lossF : Batch → Batch → Batch → Int)
    (logInterval : Nat) (cap : Int) (idx : Nat) (st : ValState) :
    ∃ st', valStep modelF params lossF logInterval cap idx st s
        = Except.ok st' := by
  obtain ⟨tp, htp⟩ := h
  simp only [valStep]
  rw [htp]
  exact ⟨_, rfl⟩

/-- Unfolding the validation loop one completed iteration at a time. -/
theorem valLoop_cons {P : Type} {modelF : P → Sample → Emb × Emb × Emb}
    {params : P} {lossF : Batch → Batch → Batch → Int} {logInterval : Nat}
    {cap : Int} {idx : Nat} {st st' : ValState} {s : Sample}
    (rest : List Sample)
    (h : valStep modelF params lossF logInterval cap idx st s
        = Except.ok st') :
    valLoop modelF params lossF logInterval cap idx st (s :: rest)
      = if (idx : Int) = cap then Except.ok (idx + 1, st')
        else valLoop modelF params lossF logInterval cap (idx + 1) st' rest := by
  simp only [valLoop]
  rw [h]

theorem valLoop_breaks_at_cap {P : Type}
    (modelF : P → Sample → Emb × Emb × Emb) (params : P)
    (lossF : Batch → Batch → Batch → Int) (logInterval k : Nat) :
    ∀ (samples : List Sample) (idx : Nat) (st : ValState),
      idx ≤ k → k - idx < samples.length →
      (∀ i (hi : i < samples.length), idx + i ≤ k →
        poolsSome modelF params (samples.get ⟨i, hi⟩)) →
      ∃ st', valLoop modelF params lossF logInterval (k : Int) idx st samples
          = Except.ok (k + 1, st') := by
  intro samples
  induction samples with
  | nil =>
    intro idx st hle hlt hvalid
    simp at hlt
  | cons s rest ih =>
    intro idx st hle hlt hvalid
    have hs : poolsSome modelF params s := by
      have := hvalid 0 (by simp) (by omega)
      simpa using this
    obtain ⟨st', hstep⟩ :=
      valStep_ok_of_poolsSome hs lossF logInterval (k : Int) idx st
    rw [valLoop_cons rest hstep]
    by_cases hidx : idx = k
    · subst hidx
      rw [if_pos rfl]
      exact ⟨st', rfl⟩
    · have hlt2 : idx < k := lt_of_le_of_ne hle hidx
      rw [if_neg (by exact_mod_cast hidx)]
      apply ih (idx + 1) st' (by omega)
        (by simp only [List.length_cons] at hlt; omega)
      intro i hi hik
      have := hvalid (i + 1) (by simpa using Nat.succ_lt_succ hi) (by omega)
      simpa using this

/-- Claim C7 as stated is refuted by a degenerate sample: with a source of
N = 2 samples and cap k = 0 (0 <= k < N), the claim demands exactly one
processed sample and a normal stop, but the first sample is degenerate, the
missing None check raises, and the loop aborts with an exception instead of
returning. -/
theorem c7_validation_cap_counterexample :
    valLoop cModelF (5 : Int) cLossF 10 0 0 cValState [degSample, okSample]
        = Except.error "TypeError: cannot unpack non-iterable NoneType object" ∧
    ¬ ∃ st, valLoop cModelF (5 : Int) cLossF 10 0 0 cValState
        [degSample, okSample] = Except.ok (0 + 1, st) := by
  have e : valLoop cModelF (5 : Int) cLossF 10 0 0 cValState
      [degSample, okSample]
      = Except.error "TypeError: cannot unpack non-iterable NoneType object" :=
    rfl
  refine ⟨e, ?_⟩
  rintro ⟨st, h⟩
  rw [e] at h
  cases h

/-- Claim C7, amended: for a data source of N samples and a cap k with
0 <= k < N, provided the pool builder succeeds on each of the samples at
indices 0..k (the claim as stated fails when one of them is degenerate,
because the validation loop raises instead of skipping), the validation
loop processes exactly k + 1 samples (indices 0 through k inclusive) and
then stops. -/
theorem c7_validation_cap {P : Type}
    (modelF : P → Sample → Emb × Emb × Emb) (params : P)
    (lossF : Batch → Batch → Batch → Int) (logInterval k : Nat)
    (samples : List Sample) (st0 : ValState)
    (hk : k < samples.length)
    (hvalid : ∀ i (hi : i < samples.length), i ≤ k →
      poolsSome modelF params (samples.get ⟨i, hi⟩)) :
    ∃ st, valLoop modelF params lossF logInterval (k : Int) 0 st0 samples
        = Except.ok (k + 1, st) := by
  apply valLoop_breaks_at_cap modelF params lossF logInterval k samples 0 st0
    (Nat.zero_le k) (by omega)
  intro i hi hik
  exact hvalid i hi (by omega)

/-- Witness for the amended C7: two valid samples, cap 0, exactly one
sample processed. -/
theorem c7_validation_cap_witness :
    ∃ st, valLoop cModelF (5 : Int) cLossF 10 ((0 : Nat) : Int) 0 cValState
        [okSample, okSample] = Except.ok (0 + 1, st) :=
  c7_validation_cap cModelF (5 : Int) cLossF 10 0 [okSample, okSample]
    cValState (by decide)
    (by
      intro i hi hik
      have h0 : i = 0 := by omega
      subst h0
      have h2 : (List.get [okSample, okSample] ⟨0, hi⟩) = okSample := rfl
      rw [h2]
      exact ⟨{ fg_embedding_a := [[2]], fg_positive_pool := [[2]],
               fg_negative_pool := [[3], [2], [3]], bg_embedding_a := [[3]],
               bg_positive_pool := [[3], [2], [3]],
               bg_negative_pool := [[2]] }, by decide⟩)

theorem valLoop_exhausts {P : Type}
    (modelF : P → Sample → Emb × Emb × Emb) (params : P)
    (lossF : Batch → Batch → Batch → Int) (logInterval : Nat) (cap : Int) :
    ∀ (samples : List Sample) (idx : Nat) (st : ValState),
      (∀ i (hi : i < samples.length),
        poolsSome modelF params (samples.get ⟨i, hi⟩)) →
      (∀ i, i < samples.length → ((idx + i : Nat) : Int) ≠ cap) →
      ∃ st', valLoop modelF params lossF logInterval cap idx st samples
          = Except.ok (idx + samples.length, st') := by
  intro samples
  induction samples with
  | nil =>
    intro idx st hvalid hne
    exact ⟨st, rfl⟩
  | cons s rest ih =>
    intro idx st hvalid hne
    have hs : poolsSome modelF params s := by
      have := hvalid 0 (by simp)
      simpa using this
    obtain ⟨st', hstep⟩ :=
      valStep_ok_of_poolsSome hs lossF logInterval cap idx st
    rw [valLoop_cons rest hstep]
    rw [if_neg (by simpa using hne 0 (by simp))]
    obtain ⟨stF, hF⟩ := ih (idx + 1) st'
      (by
        intro i hi
        have := hvalid (i + 1) (by simpa using Nat.succ_lt_succ hi)
        simpa using this)
      (by
        intro i hi
        have h1 := hne (i + 1) (by simpa using Nat.succ_lt_succ hi)
        intro hc
        apply h1
        push_cast at hc ⊢
        omega)
    refine ⟨stF, ?_⟩
    rw [hF]
    have hlen : idx + 1 + rest.length = idx + (s :: rest).length := by
      simp only [List.length_cons]
      omega
    rw [hlen]

/-- Claim C8 as stated is refuted by a degenerate sample: with a
single-sample source and the default cap -1 the claim demands that the loop
exhaust the source, processing all samples, but the degenerate sample
raises and the loop aborts with an exception. -/
theorem c8_validation_no_break_counterexample :
    valLoop cModelF (5 : Int) cLossF 10 (-1) 0 cValState [degSample, okSample]
        = Except.error "TypeError: cannot unpack non-iterable NoneType object" ∧
    ¬ ∃ st, valLoop cModelF (5 : Int) cLossF 10 (-1) 0 cValState
        [degSample, okSample] = Except.ok (2, st) := by
  have e : valLoop cModelF (5 : Int) cLossF 10 (-1) 0 cValState
      [degSample, okSample]
      = Except.error "TypeError: cannot unpack non-iterable NoneType object" :=
    rfl
  refine ⟨e, ?_⟩
  rintro ⟨st, h⟩
  rw [e] at h
  cases h

/-- Claim C8, amended: for a data source of N samples and a cap k with
k >= N or the built-in default k = -1, provided the pool builder succeeds
on every sample (the claim as stated fails when one is degenerate, because
the validation loop raises instead of skipping), the early-break condition
never fires and the loop exhausts the source, processing all N samples. -/
theorem c8_validation_no_break {P : Type}
    (modelF : P → Sample → Emb × Emb × Emb) (params : P)
    (lossF : Batch → Batch → Batch → Int) (logInterval : Nat) (cap : Int)
    (samples : List Sample) (st0 : ValState)
    (hcap : cap = -1 ∨ (samples.length : Int) ≤ cap)
    (hvalid : ∀ i (hi : i < samples.length),
      poolsSome modelF params (samples.get ⟨i, hi⟩)) :
    ∃ st, valLoop modelF params lossF logInterval cap 0 st0 samples
        = Except.ok (samples.length, st) := by
  have h := valLoop_exhausts modelF params lossF logInterval cap samples 0 st0
    hvalid
    (by
      intro i hi
      rcases hcap with h | h
      · subst h
        push_cast
        omega
      · intro hc
        rw [← hc] at h
        push_cast at h
        omega)
  simpa using h

/-- Witness for the amended C8: two valid samples, default cap -1, both
samples processed. -/
theorem c8_validation_no_break_witness :
    ∃ st, valLoop cModelF (5 : Int) cLossF 10 (-1) 0 cValState
        [okSample, okSample]
        = Except.ok (([okSample, okSample] : List Sample).length, st) :=
  c8_validation_no_break cModelF (5 : Int) cLossF 10 (-1)
    [okSample, okSample] cValState (Or.inl rfl)
    (by
      intro i hi
      exact ⟨{ fg_embedding_a := [[2]], fg_positive_pool := [[2]],
               fg_negative_pool := [[3], [2], [3]], bg_embedding_a := [[3]],
               bg_positive_pool := [[3], [2], [3]],
               bg_negative_pool := [[2]] },
             by
               have hi2 : i < 2 := by simpa using hi
               have h2 : (List.get [okSample, okSample] ⟨i, hi⟩) = okSample := by
                 interval_cases i <;> rfl
               rw [h2]
               decide⟩)

/-- A completed training iteration never touches the meter, and any scalar
it emits carries the meter's current value. -/
theorem trainStep_meter_emitted {P : Type}
    {modelF : P → Sample → Emb × Emb × Emb}
    {lossF : Batch → Batch → Batch → Int} {optUpdate : P → Int → P}
    {logInterval ckptInterval idx : Nat} {st st' : TrainState P} {s : Sample}
    (h : trainStep modelF lossF optUpdate logInterval ckptInterval idx st s
        = Except.ok st') :
    st'.meter = st.meter ∧
    (st'.emitted = st.emitted ∨
      st'.emitted = st.emitted ++ [(st.meter.value, idx + 1)]) := by
  simp only [trainStep] at h
  cases hp : create_triplet_pools s (modelF st.params s) with
  | error e => rw [hp] at h; cases h
  | ok o =>
    rw [hp] at h
    cases o with
    | none =>
      simp only [Except.ok.injEq] at h
      subst h
      exact ⟨rfl, Or.inl rfl⟩
    | some tp =>
      simp only [Except.ok.injEq] at h
      subst h
      refine ⟨rfl, ?_⟩
      by_cases hl : (idx + 1) % logInterval = 0
      · right
        show (if (idx + 1) % logInterval = 0 then _ else _) = _
        rw [if_pos hl]
      · left
        show (if (idx + 1) % logInterval = 0 then _ else _) = _
        rw [if_neg hl]

/-- Across a completed training loop the meter is untouched and every new
emission carries the initial meter value. -/
theorem trainLoop_meter_emitted {P : Type}
    (modelF : P → Sample → Emb × Emb × Emb)
    (lossF : Batch → Batch → Batch → Int) (optUpdate : P → Int → P)
    (logInterval ckptInterval : Nat) :
    ∀ (samples : List Sample) (idx : Nat) (st stF : TrainState P),
      trainLoop modelF lossF optUpdate logInterval ckptInterval idx st samples
          = Except.ok stF →
      stF.meter = st.meter ∧
      ∀ p ∈ stF.emitted, p ∈ st.emitted ∨ p.1 = st.meter.value := by
  intro samples
  induction samples with
  | nil =>
    intro idx st stF h
    simp only [trainLoop, Except.ok.injEq] at h
    subst h
    exact ⟨rfl, fun p hp => Or.inl hp⟩
  | cons s rest ih =>
    intro idx st stF h
    simp only [trainLoop] at h
    cases hstep : trainStep modelF lossF optUpdate logInterval ckptInterval
        idx st s with
    | error e => rw [hstep] at h; cases h
    | ok st' =>
      rw [hstep] at h
      replace h : trainLoop modelF lossF optUpdate logInterval ckptInterval
          (idx + 1) st' rest = Except.ok stF := h
      obtain ⟨hm, hemit⟩ := trainStep_meter_emitted hstep
      obtain ⟨hmF, hemitF⟩ := ih (idx + 1) st' stF h
      refine ⟨hmF.trans hm, ?_⟩
      intro p hp
      rcases hemitF p hp with hin | hval
      · rcases hemit with he | he
        · rw [he] at hin
          exact Or.inl hin
        · rw [he] at hin
          rcases List.mem_append.mp hin with h1 | h1
          · exact Or.inl h1
          · right
            have hp1 : p = (st.meter.value, idx + 1) := by simpa using h1
            rw [hp1]
      · right
        rw [hval, hm]

/-- A completed validation iteration never touches the meter, and any
scalar it emits carries the meter's current value. -/
theorem valStep_meter_emitted {P : Type}
    {modelF : P → Sample → Emb × Emb × Emb} {params : P}
    {lossF : Batch → Batch → Batch → Int} {logInterval : Nat} {cap : Int}
    {idx : Nat} {st st' : ValState} {s : Sample}
    (h : valStep modelF params lossF logInterval cap idx st s
        = Except.ok st') :
    st'.meter = st.meter ∧
    (st'.emitted = st.emitted ∨
      st'.emitted = st.emitted ++ [(st.meter.value, idx + 1)]) := by
  simp only [valStep] at h
  cases hp : create_triplet_pools s (modelF params s) with
  | error e => rw [hp] at h; cases h
  | ok o =>
    rw [hp] at h
    cases o with
    | none =>
      replace h : Except.error (α := ValState)
          "TypeError: cannot unpack non-iterable NoneType object"
          = Except.ok st' := h
      cases h
    | some tp =>
      simp only [Except.ok.injEq] at h
      subst h
      refine ⟨rfl, ?_⟩
      by_cases hl : (idx + 1) % logInterval = 0 ∨ (idx : Int) = cap
      · right
        show (if (idx + 1) % logInterval = 0 ∨ (idx : Int) = cap
          then _ else _) = _
        rw [if_pos hl]
      · left
        show (if (idx + 1) % logInterval = 0 ∨ (idx : Int) = cap
          then _ else _) = _
        rw [if_neg hl]

/-- Across a completed validation loop the meter is untouched and every
new emission carries the initial meter value. -/
theorem valLoop_meter_emitted {P : Type}
    (modelF : P → Sample → Emb × Emb × Emb) (params : P)
    (lossF : Batch → Batch → Batch → Int) (logInterval : Nat) (cap : Int) :
    ∀ (samples : List Sample) (idx : Nat) (st : ValState) (n : Nat)
      (stF : ValState),
      valLoop modelF params lossF logInterval cap idx st samples
          = Except.ok (n, stF) →
      stF.meter = st.meter ∧
      ∀ p ∈ stF.emitted, p ∈ st.emitted ∨ p.1 = st.meter.value := by
  intro samples
  induction samples with
  | nil =>
    intro idx st n stF h
    simp only [valLoop, Except.ok.injEq, Prod.mk.injEq] at h
    rw [← h.2]
    exact ⟨rfl, fun p hp => Or.inl hp⟩
  | cons s rest ih =>
    intro idx st n stF h
    cases hstep : valStep modelF params lossF logInterval cap idx st s with
    | error e =>
      simp only [valLoop] at h
      rw [hstep] at h
      cases h
    | ok st' =>
      rw [valLoop_cons rest hstep] at h
      obtain ⟨hm, hemit⟩ := valStep_meter_emitted hstep
      have hstep_emit : ∀ p ∈ st'.emitted, p ∈ st.emitted ∨
          p.1 = st.meter.value := by
        intro p hp
        rcases hemit with he | he
        · rw [he] at hp
          exact Or.inl hp
        · rw [he] at hp
          rcases List.mem_append.mp hp with h1 | h1
          · exact Or.inl h1
          · right
            have hp1 : p = (st.meter.value, idx + 1) := by simpa using h1
            rw [hp1]
      by_cases hc : (idx : Int) = cap
      · rw [if_pos hc] at h
        simp only [Except.ok.injEq, Prod.mk.injEq] at h
        rw [← h.2]
        exact ⟨hm, hstep_emit⟩
      · rw [if_neg hc] at h
        obtain ⟨hmF, hemitF⟩ := ih (idx + 1) st' n stF h
        refine ⟨hmF.trans hm, ?_⟩
        intro p hp
        rcases hemitF p hp with hin | hval
        · exact hstep_emit p hin
        · right
          rw [hval, hm]

/-- Claim C10: the moving-average loss meter is never fed during training
or validation, so its state is an invariant of both loops, and every
scalar emitted to the metrics sink under the train-loss and val-loss tags
equals the meter's initial value - independently of the loss functions and
of every computed fg/bg loss. -/
theorem c10_meter_never_fed {P : Type}
    (modelF : P → Sample → Emb × Emb × Emb)
    (lossF : Batch → Batch → Batch → Int) (optUpdate : P → Int → P)
    (params : P) (lossFv : Batch → Batch → Batch → Int)
    (logInterval ckptInterval logIntervalV : Nat) (cap : Int)
    (samplesT samplesV : List Sample) (m0 : Meter)
    (st0 : TrainState P) (sv0 : ValState) (stT : TrainState P)
    (n : Nat) (stV : ValState)
    (hm : st0.meter = m0) (he : st0.emitted = [])
    (hmv : sv0.meter = m0) (hev : sv0.emitted = [])
    (hT : trainLoop modelF lossF optUpdate logInterval ckptInterval 0 st0
        samplesT = Except.ok stT)
    (hV : valLoop modelF params lossFv logIntervalV cap 0 sv0 samplesV
        = Except.ok (n, stV)) :
    stT.meter = m0 ∧ stV.meter = m0 ∧
    (∀ p ∈ stT.emitted, p.1 = Meter.value m0) ∧
    (∀ p ∈ stV.emitted, p.1 = Meter.value m0) := by
  obtain ⟨hmT, hemitT⟩ := trainLoop_meter_emitted modelF lossF optUpdate
    logInterval ckptInterval samplesT 0 st0 stT hT
  obtain ⟨hmV, hemitV⟩ := valLoop_meter_emitted modelF params lossFv
    logIntervalV cap samplesV 0 sv0 n stV hV
  refine ⟨hmT.trans hm, hmV.trans hmv, ?_, ?_⟩
  · intro p hp
    rcases hemitT p hp with hin | hval
    · rw [he] at hin
      cases hin
    · rw [hval, hm]
  · intro p hp
    rcases hemitV p hp with hin | hval
    · rw [hev] at hin
      cases hin
    · rw [hval, hmv]

/-- Witness for C10 on concrete one-sample runs that each emit one
scalar. -/
theorem c10_meter_never_fed_witness :
    cMeter = cMeter ∧ cMeter = cMeter ∧
    (∀ p ∈ ([((0 : Int), 1)] : List (Int × Nat)), p.1 = Meter.value cMeter) ∧
    (∀ p ∈ ([((0 : Int), 1)] : List (Int × Nat)), p.1 = Meter.value cMeter) := by
  have h := c10_meter_never_fed cModelF cLossF cOptUpdate (5 : Int) cLossF
    1 1 1 0 [okSample] [okSample] cMeter cTrainState cValState
    { params := (7 : Int), agg_fg_loss := 1, agg_bg_loss := 1,
      mode := trainModeFrozen, meter := cMeter, emitted := [(0, 1)] }
    1
    { agg_fg_loss := 1, agg_bg_loss := 1, meter := cMeter,
      emitted := [(0, 1)] }
    rfl rfl rfl rfl (by decide) (by decide)
  exact h

end BFVOS
